import Mathlib

/-
Verification of the generative music-theory engine of the MindMelody
repository (src/utils/music_theory.py and src/music_generator.py).

The Python code is shallowly embedded:
* note names and chord symbols are `String`s, exactly as in the source;
* beat durations are `ℚ` (every duration in the source is a multiple of
  0.25, so rational arithmetic is exact for the sums the code computes);
* the process-wide `random` module (a deterministic Mersenne-Twister
  stream in CPython) is modelled as an explicit deterministic integer
  stream `Rng` with a read position; `random.choice` indexes the list by
  the drawn value and `random.random()` is the drawn value folded into
  `[0,1)`.  The claims never depend on the distribution of the draws,
  only on determinism and on which finitely many branches a draw selects;
* Python `while` loops are given an explicit fuel parameter, with `none`
  meaning the fuel was exhausted; a loop that returns `none` for every
  fuel is a loop that diverges in the source;
* Python exceptions (IndexError on `random.choice([])` or out-of-range
  list indexing, ValueError from `list.index`, ZeroDivisionError on
  `x % 0`) are modelled by `Option`, `none` meaning the call raises.
-/

set_option maxRecDepth 8000

/-- Deterministic model of the process-wide pseudo-random source: an
integer stream together with the position of the next draw. -/
structure Rng where
  stream : Nat → Nat
  pos : Nat

/-- Draw the next raw integer from the stream. -/
def Rng.next (r : Rng) : Nat × Rng := (r.stream r.pos, ⟨r.stream, r.pos + 1⟩)

/-- `random.random()`: the next draw folded into a rational in `[0,1)`
(written with `mkRat`, which kernel-reduces, rather than `/`, which does
not; the value is the same). -/
def Rng.nextQ (r : Rng) : ℚ × Rng :=
  let (v, r') := r.next
  (mkRat (v % 1000 : Nat) 1000, r')

/-- A linear-congruential stream: the `i`-th pseudo-random integer after
seeding with `seed` (stands in for CPython's Mersenne Twister; any
deterministic generator gives the same theorems). -/
def lcgStream (seed : Nat) : Nat → Nat
  | 0 => (seed * 1103515245 + 12345) % 2 ^ 31
  | i + 1 => (lcgStream seed i * 1103515245 + 12345) % 2 ^ 31

/-- The random source obtained by `random.seed(seed)`. -/
def Rng.seeded (seed : Nat) : Rng := ⟨lcgStream seed, 0⟩

/-- A random source whose every draw is the constant `v` (used to pin
down which branch a particular counterexample exercises). -/
def Rng.const (v : Nat) : Rng := ⟨fun _ => v, 0⟩

/-- `random.choice(xs)`: a drawn element of `xs`; `none` models the
IndexError raised on an empty list. -/
def choice : List α → Rng → Option (α × Rng)
  | [], _ => none
  | x :: xs, r =>
    let (v, r') := r.next
    some ((x :: xs).getD (v % (xs.length + 1)) x, r')

/-! ## String helpers mirroring the Python string operations used. -/

/-- `s.startswith(pre)` on character lists. -/
def startsWithL : List Char → List Char → Bool
  | _, [] => true
  | [], _ :: _ => false
  | a :: s, b :: p => a == b && startsWithL s p

/-- Python `s.startswith(pre)`. -/
def strStarts (s pre : String) : Bool := startsWithL s.data pre.data

/-- Python `pat in s` (substring containment) on character lists. -/
def hasSubL : List Char → List Char → Bool
  | [], pat => startsWithL [] pat
  | a :: t, pat => startsWithL (a :: t) pat || hasSubL t pat

/-- Python `pat in s` for a multi-character pattern. -/
def strHasSub (s pat : String) : Bool := hasSubL s.data pat.data

/-- Python `c in s` for a single character. -/
def strHasChar (s : String) (c : Char) : Bool := s.data.contains c

/-- Python `s.lower()`. -/
def strToLower (s : String) : String := String.mk (s.data.map Char.toLower)

/-- Python `s.isupper()` restricted to the cased (roman-letter) strings
the source applies it to. -/
def str_isupper (s : String) : Bool := !s.data.isEmpty && s.data.all Char.isUpper

/-- Python `s.split(sep)[0]` for a single-character separator. -/
def takeUntilChar (s : List Char) (c : Char) : List Char := s.takeWhile (fun a => a != c)

/-- Python `s.split(pat)[0]` for a multi-character separator. -/
def takeUntilSub (s pat : List Char) : List Char :=
  match s with
  | [] => []
  | a :: t => if startsWithL (a :: t) pat then [] else a :: takeUntilSub t pat

/-! ## music_theory.py: module-level tables -/

/-- `NOTE_NAMES` (music_theory.py line 21): the twelve chromatic pitch
names in sharp spelling, written as one literal list in the source. -/
def NOTE_NAMES : List String :=
  ["C", "C#", "D", "D#", "E", "F"] ++ ["F#", "G", "G#", "A", "A#", "B"]

/-- `MAJOR_SCALE_STEPS` (line 17). -/
def MAJOR_SCALE_STEPS : List Nat := [0, 2, 4, 5, 7, 9, 11]

/-- `MINOR_SCALE_STEPS` (line 18). -/
def MINOR_SCALE_STEPS : List Nat := [0, 2, 3, 5, 7, 8, 10]

/-- `ROMAN_TO_SCALE_DEGREE` (lines 25-28), as an association list. -/
def ROMAN_TO_SCALE_DEGREE : List (String × Nat) :=
  [("I", 0), ("II", 1), ("III", 2), ("IV", 3), ("V", 4), ("VI", 5), ("VII", 6),
   ("i", 0), ("ii", 1), ("iii", 2), ("iv", 3), ("v", 4), ("vi", 5), ("vii", 6)]

/-- The `flat_map` normalisation table inside `get_note_index` (line 42). -/
def flat_map : List (String × String) :=
  [("Db", "C#"), ("Eb", "D#"), ("Gb", "F#"), ("Ab", "G#"), ("Bb", "A#")]

/-- `get_note_index` (lines 30-59).  `none` models the ValueError raised
by `NOTE_NAMES.index` on an unknown base letter.  The Python `(index - 1)
% 12` uses mathematical modulus and `index` is in `0..11`, so it equals
`(index + 11) % 12` here. -/
def get_note_index (note_name : String) : Option Nat :=
  let note_name :=
    if note_name.data.contains 'b' then (flat_map.lookup note_name).getD note_name
    else note_name
  match NOTE_NAMES.findIdx? (fun n => n == String.mk (note_name.data.take 1)) with
  | none => none
  | some index =>
    if note_name.length > 1 then
      if note_name.data.getD 1 ' ' == '#' then some ((index + 1) % 12)
      else if note_name.data.getD 1 ' ' == 'b' then some ((index + 11) % 12)
      else some index
    else some index

/-- `get_scale_notes` (lines 61-84). -/
def get_scale_notes (key mode : String) : Option (List String) :=
  (get_note_index key).map (fun root_index =>
    let scale_steps := if strToLower mode == "major" then MAJOR_SCALE_STEPS else MINOR_SCALE_STEPS
    scale_steps.map (fun step => NOTE_NAMES.getD ((root_index + step) % 12) ""))

/-- `get_chord_notes` (lines 86-157).  The two quality branches for the
third in the source append the same scale tone, which the `ite` with
identical arms records. -/
def get_chord_notes (key mode roman_numeral : String) : Option (List String) := do
  let scale_notes ← get_scale_notes key mode
  let base_numeral := String.mk (roman_numeral.data.filter Char.isAlpha)
  let base_numeral :=
    if (ROMAN_TO_SCALE_DEGREE.lookup base_numeral).isNone then
      (if strToLower mode == "major" then "I" else "i")
    else base_numeral
  let degree := (ROMAN_TO_SCALE_DEGREE.lookup base_numeral).getD 0
  let is_major := str_isupper base_numeral
  let is_diminished := strHasSub roman_numeral "dim" || strHasChar roman_numeral '°'
  let is_augmented := strHasSub roman_numeral "aug" || strHasChar roman_numeral '+'
  let is_seventh := strHasChar roman_numeral '7'
  let root ← scale_notes.get? degree
  let third ← scale_notes.get? ((degree + 2) % 7)
  let chord_notes := if is_major && !is_diminished then [root, third] else [root, third]
  let fifth ← scale_notes.get? ((degree + 4) % 7)
  let chord_notes :=
    if is_diminished then chord_notes ++ [fifth ++ "b"]
    else if is_augmented then chord_notes ++ [fifth ++ "#"]
    else chord_notes ++ [fifth]
  if is_seventh then do
    let seventh ← scale_notes.get? ((degree + 6) % 7)
    pure (chord_notes ++ [seventh])
  else
    pure chord_notes

/-! ## music_theory.py: chord-progression selection -/

/-- `major_progressions` inside `get_chord_progression` (lines 172-177). -/
def major_progressions : List (List String) :=
  [["I", "IV", "V", "I"], ["I", "vi", "IV", "V"],
   ["I", "V", "vi", "IV"], ["ii", "V", "I", "IV"]]

/-- `minor_progressions` (lines 179-184). -/
def minor_progressions : List (List String) :=
  [["i", "iv", "v", "i"], ["i", "VI", "III", "VII"],
   ["i", "iv", "VII", "III"], ["i", "v", "VI", "v"]]

/-- The `repeated = []; while len(repeated) < n: repeated.extend(prog)`
loop shared by `get_chord_progression`, `generate_melody` and
`generate_bass_line`, with explicit fuel.  `none` for every fuel means
the source loop never exits. -/
def extendLoop (prog acc : List String) (n fuel : Nat) : Option (List String) :=
  if acc.length < n then
    match fuel with
    | 0 => none
    | fuel' + 1 => extendLoop prog (acc ++ prog) n fuel'
  else some acc

/-- The repeat-or-trim adjustment at the end of `get_chord_progression`
(lines 190-200): cyclic repetition then truncation when the target is
longer, plain truncation when shorter, identity otherwise. -/
def adjustLength (progression : List String) (length fuel : Nat) : Option (List String) :=
  if progression.length < length then
    (extendLoop progression [] length fuel).map (fun repeated => repeated.take length)
  else if length < progression.length then
    some (progression.take length)
  else
    some progression

/-- `get_chord_progression` (lines 159-202); the `key` argument is unused
in the source as well. -/
def get_chord_progression (key mode : String) (length : Nat) (r : Rng) (fuel : Nat) :
    Option (List String × Rng) := do
  let progressions := if strToLower mode == "major" then major_progressions else minor_progressions
  let (progression, r) ← choice progressions r
  let progression ← adjustLength progression length fuel
  pure (progression, r)

/-! ## music_theory.py: rhythm patterns -/

/-- The `while total_duration < target_duration` sampling loop of
`generate_rhythm_pattern` (lines 371-377), with explicit fuel. -/
def rhythmLoop (available_durations pattern : List ℚ) (total_duration : ℚ) (r : Rng)
    (fuel : Nat) : Option (List ℚ × Rng) :=
  if total_duration < 4 then
    match fuel with
    | 0 => none
    | fuel' + 1 =>
      match choice available_durations r with
      | none => none
      | some (duration, r') =>
        rhythmLoop available_durations (pattern ++ [duration]) (total_duration + duration) r' fuel'
  else
    some (pattern, r)

/-- `generate_rhythm_pattern` (lines 339-379).  Fractional constants are
written with `mkRat` (0.3 = `mkRat 3 10`, 0.5 = `mkRat 1 2`, ...) so that
they kernel-reduce. -/
def generate_rhythm_pattern (complexity : ℚ) (r : Rng) (fuel : Nat) : Option (List ℚ × Rng) :=
  let available_durations : List ℚ :=
    if complexity < mkRat 3 10 then [2, 1, 1, 1]
    else if complexity < mkRat 6 10 then [2, 1, 1, mkRat 1 2, mkRat 1 2]
    else [1, mkRat 1 2, mkRat 1 2, mkRat 1 4, mkRat 1 4]
  rhythmLoop available_durations [] 0 r fuel

/-! ## music_theory.py: melody generator -/

/-- The chord-tone dispatch of `generate_melody` (lines 235-249), with the
source's branch order: any symbol starting with `I`/`i` (including `II`,
`III`, `IV`, ...) takes the first branch, any symbol starting with `V`/`v`
takes the `V` branch; other symbols leave `chord_tones = []`.  `none`
models the IndexError of indexing a too-short scale. -/
def melodyChordTones (scale_notes : List String) (chord : String) : Option (List String) :=
  if strStarts chord "I" || strStarts chord "i" then do
    let a ← scale_notes.get? 0
    let b ← scale_notes.get? 2
    let c ← scale_notes.get? 4
    pure [a, b, c]
  else if strStarts chord "II" || strStarts chord "ii" then do
    let a ← scale_notes.get? 1
    let b ← scale_notes.get? 3
    let c ← scale_notes.get? 5
    pure [a, b, c]
  else if strStarts chord "III" || strStarts chord "iii" then do
    let a ← scale_notes.get? 2
    let b ← scale_notes.get? 4
    let c ← scale_notes.get? 6
    pure [a, b, c]
  else if strStarts chord "IV" || strStarts chord "iv" then do
    let a ← scale_notes.get? 3
    let b ← scale_notes.get? 5
    let c ← scale_notes.get? 0
    pure [a, b, c]
  else if strStarts chord "V" || strStarts chord "v" then do
    let a ← scale_notes.get? 4
    let b ← scale_notes.get? 6
    let c ← scale_notes.get? 1
    pure [a, b, c]
  else if strStarts chord "VI" || strStarts chord "vi" then do
    let a ← scale_notes.get? 5
    let b ← scale_notes.get? 0
    let c ← scale_notes.get? 2
    pure [a, b, c]
  else if strStarts chord "VII" || strStarts chord "vii" then do
    let a ← scale_notes.get? 6
    let b ← scale_notes.get? 1
    let c ← scale_notes.get? 3
    pure [a, b, c]
  else
    pure []

/-- The per-duration note picking inside a melody measure (lines 260-272):
70% chord tone vs scale tone, then a 10% chance of replacing the note by
a rest.  `none` models `random.choice` on an empty list. -/
def measureNotes (scale_notes chord_tones : List String) (pattern : List ℚ)
    (acc : List (String × ℚ)) (r : Rng) : Option (List (String × ℚ) × Rng) :=
  match pattern with
  | [] => some (acc, r)
  | rhythm_value :: rest => do
    let (q1, r) := r.nextQ
    let (note, r) ← if q1 < mkRat 7 10 then choice chord_tones r else choice scale_notes r
    let (q2, r) := r.nextQ
    let note := if q2 < mkRat 1 10 then "rest" else note
    measureNotes scale_notes chord_tones rest (acc ++ [(note, rhythm_value)]) r

/-- The `for measure_idx in range(num_measures)` loop of `generate_melody`
(lines 231-272).  Each measure generates a rhythm pattern, rescales it to
4 beats (`scale_factor = 4.0 / total_duration`), and picks a note per
duration. -/
def melodyMeasures (scale_notes chord_progression : List String) (rhythm_variation : ℚ)
    (measures : List Nat) (acc : List (String × ℚ)) (r : Rng) (fuel : Nat) :
    Option (List (String × ℚ) × Rng) :=
  match measures with
  | [] => some (acc, r)
  | measure_idx :: rest => do
    let chord ← chord_progression.get? (measure_idx % chord_progression.length)
    let chord_tones ← melodyChordTones scale_notes chord
    let (rhythm_pattern, r) ← generate_rhythm_pattern rhythm_variation r fuel
    let total_duration := rhythm_pattern.sum
    let scale_factor := 4 / total_duration
    let rhythm_pattern := rhythm_pattern.map (fun duration => duration * scale_factor)
    let (notes, r) ← measureNotes scale_notes chord_tones rhythm_pattern [] r
    melodyMeasures scale_notes chord_progression rhythm_variation rest (acc ++ notes) r fuel

/-- `generate_melody` (lines 204-274). -/
def generate_melody (scale_notes chord_progression : List String) (num_measures : Nat)
    (rhythm_variation : ℚ) (r : Rng) (fuel : Nat) : Option (List (String × ℚ) × Rng) := do
  let extended ← extendLoop chord_progression [] num_measures fuel
  let chord_progression := extended.take num_measures
  melodyMeasures scale_notes chord_progression rhythm_variation (List.range num_measures) [] r fuel

/-! ## music_theory.py: bass-line generator -/

/-- The `patterns` list built for one measure of `generate_bass_line`
(lines 304-329): the root degree is looked up from the FIRST CHARACTER of
the chord symbol only (`chord[0]`), defaulting to 0, and the five canned
patterns are built from the scale notes at that degree and its offsets.
`none` models the IndexError of `chord[0]` on an empty symbol or of
indexing a too-short scale. -/
def bass_patterns (scale_notes : List String) (chord : String) :
    Option (List (List (String × ℚ))) := do
  let c0 ← chord.data.head?
  let root_degree := (ROMAN_TO_SCALE_DEGREE.lookup (String.mk [c0])).getD 0
  let root_note ← scale_notes.get? root_degree
  let third_note ← scale_notes.get? ((root_degree + 2) % 7)
  let fifth_note ← scale_notes.get? ((root_degree + 4) % 7)
  let seventh_note ← scale_notes.get? ((root_degree + 6) % 7)
  pure
    [[(root_note, 4)],
     [(root_note, 2), (root_note, 2)],
     [(root_note, 2), (fifth_note, 2)],
     [(root_note, 1), (third_note, 1), (fifth_note, 1), (seventh_note, 1)],
     [(root_note, 1), ("rest", mkRat 1 2), (root_note, 1), (root_note, 1),
      ("rest", mkRat 1 2)]]

/-- The `for measure_idx in range(num_measures)` loop of
`generate_bass_line` (lines 301-335): per measure one of the five canned
patterns is drawn and appended. -/
def bassMeasures (scale_notes chord_progression : List String) (measures : List Nat)
    (acc : List (String × ℚ)) (r : Rng) : Option (List (String × ℚ) × Rng) :=
  match measures with
  | [] => some (acc, r)
  | measure_idx :: rest => do
    let chord ← chord_progression.get? (measure_idx % chord_progression.length)
    let patterns ← bass_patterns scale_notes chord
    let (pattern, r) ← choice patterns r
    bassMeasures scale_notes chord_progression rest (acc ++ pattern) r

/-- `generate_bass_line` (lines 276-337). -/
def generate_bass_line (scale_notes chord_progression : List String) (num_measures : Nat)
    (r : Rng) (fuel : Nat) : Option (List (String × ℚ) × Rng) := do
  let extended ← extendLoop chord_progression [] num_measures fuel
  let chord_progression := extended.take num_measures
  bassMeasures scale_notes chord_progression (List.range num_measures) [] r

/-! ## music_generator.py: jazz chord comping -/

/-- One chord stab emitted by a comping routine: offset within the
measure, the chord's note names, duration, velocity. -/
structure ChordEvent where
  offset : ℚ
  notes : List String
  duration : ℚ
  velocity : Nat
deriving DecidableEq

/-- `MusicGenerator._get_chord_notes` (music_generator.py lines 389-416):
strips `7`/`dim`/`aug` markings, looks up the full base numeral, builds
the 1-3-5 triad (plus the seventh when `'7' in chord_name`), and falls
back to the tonic triad for unknown numerals. -/
def mg_get_chord_notes (chord_name : String) (scale_notes : List String) :
    Option (List String) :=
  let base_chord := String.mk
    (takeUntilSub (takeUntilSub (takeUntilChar chord_name.data '7') "dim".data) "aug".data)
  match ROMAN_TO_SCALE_DEGREE.lookup base_chord with
  | some root_idx => do
    let root ← scale_notes.get? root_idx
    let third ← scale_notes.get? ((root_idx + 2) % 7)
    let fifth ← scale_notes.get? ((root_idx + 4) % 7)
    if strHasChar chord_name '7' then do
      let seventh ← scale_notes.get? ((root_idx + 6) % 7)
      pure [root, third, fifth, seventh]
    else
      pure [root, third, fifth]
  | none => do
    let a ← scale_notes.get? 0
    let b ← scale_notes.get? 2
    let c ← scale_notes.get? 4
    pure [a, b, c]

/-- `music21`'s `note.Note(root).transpose(k)` modelled at pitch-class
level: the transposed note's chromatic pitch class, spelled via
`NOTE_NAMES`.  (The claims only count distinct pitch classes, which the
spelling does not affect.) -/
def transposeName (root : String) (semitones : Nat) : Option String :=
  (get_note_index root).map (fun idx => NOTE_NAMES.getD ((idx + semitones) % 12) "")

/-- `MusicGenerator._add_jazz_chord_pattern` (lines 241-261): extensions
(9th always when complexity > 0.6 and the chord has ≥ 3 tones; an 11th
(+18) or 13th (+21) drawn at random when complexity > 0.8), then four
half-beat chord stabs at one of two syncopated offset patterns. -/
def add_jazz_chord_pattern (chord_notes : List String) (complexity : ℚ) (r : Rng) :
    Option (List ChordEvent × Rng) := do
  let (chord_notes, r) ←
    if mkRat 6 10 < complexity ∧ 3 ≤ chord_notes.length then do
      let root ← chord_notes.get? 0
      let ninth ← transposeName root 14
      if mkRat 8 10 < complexity then do
        let (q, r') := r.nextQ
        let extension ← transposeName root (if mkRat 1 2 < q then 18 else 21)
        pure (chord_notes ++ [ninth, extension], r')
      else
        pure (chord_notes ++ [ninth], r)
    else
      pure (chord_notes, r)
  let (q2, r') := r.nextQ
  let offsets : List ℚ :=
    if mkRat 1 2 < q2 then [0, mkRat 3 2, mkRat 5 2, mkRat 7 2]
    else [mkRat 1 2, mkRat 3 2, 2, 3]
  pure (offsets.enum.map
    (fun p => ChordEvent.mk p.2 chord_notes (mkRat 1 2) (70 + (p.1 % 3) * 10)), r')

/-- The per-measure body of `MusicGenerator._generate_chord_part`
(lines 196-215) for `style == "jazz"`, iterated over the extended
progression. -/
def jazzMeasuresLoop (scale_notes : List String) (chords : List String) (complexity : ℚ)
    (acc : List (List ChordEvent)) (r : Rng) : Option (List (List ChordEvent) × Rng) :=
  match chords with
  | [] => some (acc, r)
  | chord_name :: rest => do
    let chord_notes ← mg_get_chord_notes chord_name scale_notes
    let (events, r) ← add_jazz_chord_pattern chord_notes complexity r
    jazzMeasuresLoop scale_notes rest complexity (acc ++ [events]) r

/-- `MusicGenerator._generate_chord_part` (lines 182-215) restricted to
`style == "jazz"` (the style claim C3 fixes): the progression is repeated
and truncated to `total_measures` by the same while-loop, then each
measure dispatches to `_add_jazz_chord_pattern`. -/
def generate_chord_part_jazz (scale_notes chord_progression : List String)
    (total_measures : Nat) (complexity : ℚ) (r : Rng) (fuel : Nat) :
    Option (List (List ChordEvent) × Rng) := do
  let full ← extendLoop chord_progression [] total_measures fuel
  let full_progression := full.take total_measures
  jazzMeasuresLoop scale_notes full_progression complexity [] r

/-! ## Derived notions used by the claims -/

/-- The distinct chromatic pitch classes named by a list of note names
(names that parse via `get_note_index`, folded mod 12, deduplicated). -/
def pitchClassesOf (notes : List String) : List Nat :=
  (notes.filterMap get_note_index).dedup

/-- Number of distinct pitch classes in a chord. -/
def distinctPC (notes : List String) : Nat := (pitchClassesOf notes).length

/-- All syntactically valid root note names: a letter `A`..`G` with an
optional `#` or `b`. -/
def validRoots : List String :=
  ["A", "B", "C", "D", "E", "F", "G",
   "A#", "B#", "C#", "D#", "E#", "F#", "G#",
   "Ab", "Bb", "Cb", "Db", "Eb", "Fb", "Gb"]

/-- The two mode names. -/
def modeNames : List String := ["major", "minor"]

/-- The fourteen plain roman numerals of the degree table. -/
def plainNumerals : List String :=
  ["I", "II", "III", "IV", "V", "VI", "VII", "i", "ii", "iii", "iv", "v", "vi", "vii"]

/-- The scale degree `generate_bass_line` actually resolves: the table
entry of the chord symbol's first character alone, defaulting to 0. -/
def romanFirstDeg (c : Char) : Nat :=
  (ROMAN_TO_SCALE_DEGREE.lookup (String.mk [c])).getD 0

/-- The degree of a (full) roman numeral under the table, defaulting to 0. -/
def romanDeg (num : String) : Nat := (ROMAN_TO_SCALE_DEGREE.lookup num).getD 0

/-- The C-major scale as computed by `get_scale_notes "C" "major"`. -/
def cMajorScale : List String := ["C", "D", "E", "F", "G", "A", "B"]

/-- The triad `_get_chord_notes` derives for a numeral over the scale of
`(key, mode)`. -/
def jazzTriad (key mode num : String) : Option (List String) :=
  (get_scale_notes key mode).bind (fun scale => mg_get_chord_notes num scale)

/-- The chromatic interval from a chord's root to its fifth (third listed
note), as the code lays triads out. -/
def triadFifthInterval (key mode num : String) : Option Nat := do
  let cn ← jazzTriad key mode num
  let rpc ← (cn.getD 0 "" : String) |> get_note_index
  let fpc ← (cn.getD 2 "" : String) |> get_note_index
  pure ((12 + fpc - rpc) % 12)

/-- The 9th extension `_add_jazz_chord_pattern` appends: root + 14
semitones, folded. -/
def jazzNinth (cn : List String) : String := (transposeName (cn.getD 0 "") 14).getD ""

/-- The second extension: root + 18 (11th) when the coin is true, else
root + 21 (13th). -/
def jazzExt (cn : List String) (b : Bool) : String :=
  (transposeName (cn.getD 0 "") (if b then 18 else 21)).getD ""

/-- `generate_melody` diverges at these arguments: the measure-extension
loop exhausts every fuel. -/
def melodyDivergesAt (scale_notes chord_progression : List String) (num_measures : Nat)
    (rhythm_variation : ℚ) (r : Rng) : Prop :=
  ∀ fuel, generate_melody scale_notes chord_progression num_measures rhythm_variation r fuel = none

/-- `generate_bass_line` diverges at these arguments. -/
def bassDivergesAt (scale_notes chord_progression : List String) (num_measures : Nat)
    (r : Rng) : Prop :=
  ∀ fuel, generate_bass_line scale_notes chord_progression num_measures r fuel = none

/-! ## Helper lemmas about the loops -/

lemma extendLoop_nil (n : Nat) (acc : List String) (h : acc.length < n) :
    ∀ fuel, extendLoop [] acc n fuel = none := by
  intro fuel
  induction fuel with
  | zero => simp [extendLoop, h]
  | succ f ih => simpa [extendLoop, h] using ih

lemma extendLoop_char {prog acc : List String} {n fuel : Nat} {res : List String}
    (h : extendLoop prog acc n fuel = some res) :
    ∃ k, res = acc ++ (List.replicate k prog).flatten ∧ n ≤ res.length := by
  induction fuel generalizing acc with
  | zero =>
    rw [extendLoop] at h
    by_cases hlt : acc.length < n
    · simp [hlt] at h
    · simp [hlt] at h
      subst h
      exact ⟨0, by simp, by omega⟩
  | succ f ih =>
    rw [extendLoop] at h
    by_cases hlt : acc.length < n
    · simp only [hlt, if_true] at h
      obtain ⟨k, hk, hlen⟩ := ih h
      refine ⟨k + 1, ?_, hlen⟩
      rw [List.replicate_succ, List.flatten_cons, ← List.append_assoc]
      exact hk
    · simp [hlt] at h
      subst h
      exact ⟨0, by simp, by omega⟩

lemma extendLoop_isSome {prog : List String} :
    ∀ (fuel : Nat) (acc : List String) (n : Nat), n ≤ acc.length + fuel * prog.length →
      (extendLoop prog acc n fuel).isSome := by
  intro fuel
  induction fuel with
  | zero =>
    intro acc n hb
    have hnlt : ¬ acc.length < n := by omega
    simp [extendLoop, hnlt]
  | succ f ih =>
    intro acc n hb
    rw [extendLoop]
    by_cases hlt : acc.length < n
    · simp only [hlt, if_true]
      apply ih
      have : (f + 1) * prog.length = f * prog.length + prog.length := by ring
      simp only [List.length_append]
      omega
    · simp [hlt]

lemma flatten_replicate_length {α : Type} (l : List α) (k : Nat) :
    ((List.replicate k l).flatten).length = k * l.length := by
  simp [List.length_flatten, List.map_replicate, List.sum_replicate, smul_eq_mul]

lemma flatten_replicate_get {α : Type} (l : List α) :
    ∀ (k i : Nat), i < k * l.length →
      ((List.replicate k l).flatten).get? i = l.get? (i % l.length) := by
  intro k
  induction k with
  | zero => intro i hi; omega
  | succ k ih =>
    intro i hi
    rw [List.replicate_succ, List.flatten_cons]
    by_cases h : i < l.length
    · rw [List.get?_eq_getElem?, List.getElem?_append_left h, ← List.get?_eq_getElem?,
        Nat.mod_eq_of_lt h]
    · push_neg at h
      obtain ⟨j, rfl⟩ : ∃ j, i = l.length + j := ⟨i - l.length, by omega⟩
      rw [List.get?_eq_getElem?, List.getElem?_append_right h, ← List.get?_eq_getElem?]
      have hj : j < k * l.length := by
        have : (k + 1) * l.length = k * l.length + l.length := by ring
        omega
      rw [Nat.add_sub_cancel_left, ih j hj, Nat.add_mod_left]

lemma rhythmLoop_spec {avail : List ℚ} (hne : avail ≠ []) (hlb : ∀ d ∈ avail, (1/4 : ℚ) ≤ d) :
    ∀ (fuel : Nat) (pattern : List ℚ) (total : ℚ) (r : Rng),
      total < 4 → (4 : ℚ) ≤ total + (fuel : ℚ) * (1/4) →
      ∃ ext r', rhythmLoop avail pattern total r fuel = some (pattern ++ ext, r') ∧
        ext ≠ [] ∧ (∀ d ∈ ext, d ∈ avail) ∧ 4 ≤ total + ext.sum ∧
        ∀ k < ext.length, total + (ext.take k).sum < 4 := by
  intro fuel
  induction fuel with
  | zero =>
    intro pattern total r h4 hb
    exfalso
    push_cast at hb
    linarith
  | succ f ih =>
    intro pattern total r h4 hb
    obtain ⟨x, xs, rfl⟩ : ∃ x xs, avail = x :: xs := by
      cases avail with
      | nil => exact absurd rfl hne
      | cons x xs => exact ⟨x, xs, rfl⟩
    rw [rhythmLoop, if_pos h4]
    have hchoice : choice (x :: xs) r =
        some ((x :: xs).getD (r.next.1 % (xs.length + 1)) x, r.next.2) := rfl
    rw [hchoice]
    set d := (x :: xs).getD (r.next.1 % (xs.length + 1)) x with hd
    have hdmem : d ∈ x :: xs := by
      have hlt : r.next.1 % (xs.length + 1) < (x :: xs).length := by
        simp [Nat.mod_lt]
      rw [hd, List.getD_eq_getElem _ _ hlt]
      exact List.getElem_mem hlt
    by_cases hlt : total + d < 4
    · obtain ⟨ext', r', heq, hne', hmem, hsum, hpre⟩ :=
        ih (pattern ++ [d]) (total + d) r.next.2 hlt
          (by push_cast at hb ⊢; have := hlb d hdmem; linarith)
      refine ⟨d :: ext', r', ?_, by simp, ?_, ?_, ?_⟩
      · simpa [List.append_assoc] using heq
      · intro e he
        rcases List.mem_cons.mp he with rfl | he
        · exact hdmem
        · exact hmem e he
      · rw [List.sum_cons]
        linarith
      · intro k hk
        cases k with
        | zero => simpa using h4
        | succ j =>
          rw [List.take_succ_cons, List.sum_cons]
          have := hpre j (by simpa using hk)
          linarith
    · refine ⟨[d], r.next.2, ?_, by simp, ?_, ?_, ?_⟩
      · show rhythmLoop (x :: xs) (pattern ++ [d]) (total + d) r.next.2 f =
          some (pattern ++ [d], r.next.2)
        rw [rhythmLoop.eq_def, if_neg hlt]
      · intro e he
        rcases List.mem_singleton.mp he with rfl
        exact hdmem
      · simp only [List.sum_cons, List.sum_nil, add_zero]
        linarith
      · intro k hk
        have hk0 : k = 0 := by simpa [Nat.lt_one_iff] using hk
        subst hk0
        simpa using h4

lemma romanDeg_lt (s : String) : (ROMAN_TO_SCALE_DEGREE.lookup s).getD 0 < 7 := by
  simp only [ROMAN_TO_SCALE_DEGREE, List.lookup]
  repeat' split
  all_goals decide

lemma scale7_get {scale : List String} (h7 : scale.length = 7) {i : Nat} (hi : i < 7) :
    ∃ a, scale.get? i = some a :=
  ⟨_, List.get?_eq_get (by omega)⟩

/-! ## Claim C1 -/

/-- Claim C1, counterexample: for the chord symbol `"IV"` over the C-major
scale, the full-numeral degree is 3 (note `"F"`), but the generated bass
measure is rooted on `"C"` — the generator resolved only the first
character `'I'` (degree 0), not the full numeral. -/
theorem C1_counterexample :
    (generate_bass_line cMajorScale ["IV"] 1 (Rng.seeded 0) 2).map Prod.fst =
      some [("C", (4 : ℚ))] ∧
    romanDeg "IV" = 3 ∧ cMajorScale.getD 3 "" = "F" ∧ ("C" : String) ≠ "F" := by
  decide

/-- Claim C1 (amended): per measure the bass-line generator resolves the
scale degree of the chord symbol's FIRST CHARACTER only (via the standard
table, defaulting to 0), so a multi-character numeral such as `"IV"`
resolves like `"I"`; the candidate list holds exactly 5 canned patterns,
and every one of them begins on (is built from) the scale note at that
first-character degree. -/
theorem C1_bass_patterns_root :
    ∀ (scale_notes : List String) (chord : String) (ch : Char),
      scale_notes.length = 7 → chord.data.head? = some ch →
      (bass_patterns scale_notes chord).map List.length = some 5 ∧
      (bass_patterns scale_notes chord).map
          (fun pats => pats.all
            (fun p => (p.head?.map Prod.fst) == scale_notes.get? (romanFirstDeg ch))) =
        some true := by
  intro scale_notes chord ch h7 hch
  have hdeg : romanFirstDeg ch < 7 := romanDeg_lt _
  obtain ⟨root, hroot⟩ := scale7_get h7 hdeg
  obtain ⟨n2, h2⟩ := scale7_get h7 (Nat.mod_lt _ (by omega) : (romanFirstDeg ch + 2) % 7 < 7)
  obtain ⟨n4, h4⟩ := scale7_get h7 (Nat.mod_lt _ (by omega) : (romanFirstDeg ch + 4) % 7 < 7)
  obtain ⟨n6, h6⟩ := scale7_get h7 (Nat.mod_lt _ (by omega) : (romanFirstDeg ch + 6) % 7 < 7)
  simp only [bass_patterns, romanFirstDeg] at *
  simp only [List.get?_eq_getElem?] at hroot h2 h4 h6
  simp [hch, hroot, h2, h4, h6]

/-- Witness for C1's amended theorem at the concrete input of the
counterexample: scale C major, chord `"IV"`, first character `'I'`. -/
theorem C1_bass_patterns_root_witness :
    (bass_patterns cMajorScale "IV").map List.length = some 5 ∧
    (bass_patterns cMajorScale "IV").map
        (fun pats => pats.all
          (fun p => (p.head?.map Prod.fst) == cMajorScale.get? (romanFirstDeg 'I'))) =
      some true :=
  C1_bass_patterns_root cMajorScale "IV" 'I' (by decide) (by decide)

/-! ## Claim C4 -/

/-- Claim C4: two runs of any single generator (melody, bass line, rhythm
pattern, progression selection) from the same seeded random-source state
and identical inputs produce identical outputs.  In this embedding the
random source is explicit deterministic state, so the output is a
function of the seed and the inputs by construction — exactly the
property the claim asserts of the seeded Mersenne-Twister source. -/
theorem C4_determinism :
    ∀ (seed : Nat) (scale_notes chord_progression : List String) (num_measures : Nat)
      (rhythm_variation complexity : ℚ) (key mode : String) (len fuel : Nat),
      generate_melody scale_notes chord_progression num_measures rhythm_variation
          (Rng.seeded seed) fuel =
        generate_melody scale_notes chord_progression num_measures rhythm_variation
          (Rng.seeded seed) fuel ∧
      generate_bass_line scale_notes chord_progression num_measures (Rng.seeded seed) fuel =
        generate_bass_line scale_notes chord_progression num_measures (Rng.seeded seed) fuel ∧
      generate_rhythm_pattern complexity (Rng.seeded seed) fuel =
        generate_rhythm_pattern complexity (Rng.seeded seed) fuel ∧
      get_chord_progression key mode len (Rng.seeded seed) fuel =
        get_chord_progression key mode len (Rng.seeded seed) fuel :=
  fun _ _ _ _ _ _ _ _ _ _ => ⟨rfl, rfl, rfl, rfl⟩

/-! ## Claim C6 -/

/-- Claim C6: for every valid root name (letter `A`..`G` with optional
`#`/`b`) and both modes, `get_scale_notes` returns exactly 7 notes naming
7 distinct pitch classes, and the scale's first element is the normalized
(sharp-spelled) root, i.e. `NOTE_NAMES` at the root's chromatic index. -/
theorem C6_scale_notes :
    ∀ key ∈ validRoots, ∀ mode ∈ modeNames,
      (get_scale_notes key mode).map List.length = some 7 ∧
      (get_scale_notes key mode).map distinctPC = some 7 ∧
      (get_scale_notes key mode).bind List.head? =
        (get_note_index key).map (fun i => NOTE_NAMES.getD i "") := by
  decide

/-- Witness for C6 at key `"C"`, mode `"major"`. -/
theorem C6_scale_notes_witness :
    (get_scale_notes "C" "major").map List.length = some 7 ∧
    (get_scale_notes "C" "major").map distinctPC = some 7 ∧
    (get_scale_notes "C" "major").bind List.head? =
      (get_note_index "C").map (fun i => NOTE_NAMES.getD i "") :=
  C6_scale_notes "C" (by decide) "major" (by decide)

/-! ## Claim C9 -/

/-- Claim C9, counterexample: `"IX7"` has alphabetic part `"IX"`, which is
not in the degree table, yet `get_chord_notes` returns the four-note tonic
SEVENTH chord, not the tonic triad — the modifier survives the fallback. -/
theorem C9_counterexample :
    (ROMAN_TO_SCALE_DEGREE.lookup (String.mk ("IX7".data.filter Char.isAlpha))).isNone = true ∧
    get_chord_notes "C" "major" "IX7" = some ["C", "E", "G", "B"] ∧
    get_chord_notes "C" "major" "I" = some ["C", "E", "G"] ∧
    (["C", "E", "G", "B"] : List String) ≠ ["C", "E", "G"] := by
  decide

lemma get_scale_notes_length {key mode : String} {s : List String}
    (h : get_scale_notes key mode = some s) : s.length = 7 := by
  rw [get_scale_notes] at h
  cases hk : get_note_index key with
  | none => rw [hk] at h; simp at h
  | some i =>
    rw [hk] at h
    simp only [Option.map_some', Option.some.injEq] at h
    subst h
    by_cases hm : (strToLower mode == "major") = true <;>
      simp [hm, MAJOR_SCALE_STEPS, MINOR_SCALE_STEPS]

/-- Claim C9 (amended): for every key and mode whose scale resolves and
every numeral whose alphabetic part is NOT in the degree table,
`get_chord_notes` does not raise: it falls back to scale degree 0 (the
tonic).  When the unknown numeral carries none of the modifier markers
(`7`, `dim`, `°`, `aug`, `+`) — e.g. `"IX"` — the result is exactly the
tonic triad, equal to `get_chord_notes` of `"I"` in major / `"i"` in
minor.  (A modifier in an unknown numeral is still applied to the
fallback tonic, which is what the counterexample `"IX7"` exhibits.) -/
theorem C9_unknown_numeral_fallback :
    ∀ (key mode num : String),
      (get_scale_notes key mode).isSome = true →
      (ROMAN_TO_SCALE_DEGREE.lookup (String.mk (num.data.filter Char.isAlpha))).isNone = true →
      strHasSub num "dim" = false → strHasChar num '°' = false →
      strHasSub num "aug" = false → strHasChar num '+' = false →
      strHasChar num '7' = false →
      get_chord_notes key mode num =
        (get_scale_notes key mode).map (fun s => [s.getD 0 "", s.getD 2 "", s.getD 4 ""]) ∧
      get_chord_notes key mode num =
        get_chord_notes key mode (if strToLower mode == "major" then "I" else "i") := by
  intro key mode num hscale hlook hd1 hd2 ha1 ha2 h7c
  obtain ⟨s, hs⟩ := Option.isSome_iff_exists.mp hscale
  have hslen : s.length = 7 := get_scale_notes_length hs
  obtain ⟨a0, h0⟩ := scale7_get hslen (by omega : (0 : Nat) < 7)
  obtain ⟨a2, h2⟩ := scale7_get hslen (by omega : (2 : Nat) < 7)
  obtain ⟨a4, h4⟩ := scale7_get hslen (by omega : (4 : Nat) < 7)
  simp only [List.get?_eq_getElem?] at h0 h2 h4
  have g0 : s[0]?.getD "" = a0 := by rw [h0]; rfl
  have g2 : s[2]?.getD "" = a2 := by rw [h2]; rfl
  have g4 : s[4]?.getD "" = a4 := by rw [h4]; rfl
  have eI : (ROMAN_TO_SCALE_DEGREE.lookup "I").getD 0 = 0 := by decide
  have ei : (ROMAN_TO_SCALE_DEGREE.lookup "i").getD 0 = 0 := by decide
  have hL : get_chord_notes key mode num = some [a0, a2, a4] := by
    by_cases hm : (strToLower mode == "major") = true
    · simp [get_chord_notes, hs, hlook, hm, hd1, hd2, ha1, ha2, h7c, eI, h0, h2, h4, ite_self]
    · simp [get_chord_notes, hs, hlook, hm, hd1, hd2, ha1, ha2, h7c, ei, h0, h2, h4, ite_self]
  refine ⟨?_, ?_⟩
  · rw [hL, hs]
    simp [g0, g2, g4]
  · have eIa : String.mk ("I".data.filter Char.isAlpha) = "I" := by decide
    have eia : String.mk ("i".data.filter Char.isAlpha) = "i" := by decide
    have eIn : (ROMAN_TO_SCALE_DEGREE.lookup ("I" : String)).isNone = false := by decide
    have ein : (ROMAN_TO_SCALE_DEGREE.lookup ("i" : String)).isNone = false := by decide
    have md1 : strHasSub "I" "dim" = false := by decide
    have md2 : strHasChar "I" '°' = false := by decide
    have md3 : strHasSub "I" "aug" = false := by decide
    have md4 : strHasChar "I" '+' = false := by decide
    have md5 : strHasChar "I" '7' = false := by decide
    have mi1 : strHasSub "i" "dim" = false := by decide
    have mi2 : strHasChar "i" '°' = false := by decide
    have mi3 : strHasSub "i" "aug" = false := by decide
    have mi4 : strHasChar "i" '+' = false := by decide
    have mi5 : strHasChar "i" '7' = false := by decide
    by_cases hm : (strToLower mode == "major") = true
    · rw [hL, if_pos hm]
      have hR : get_chord_notes key mode "I" = some [a0, a2, a4] := by
        simp [get_chord_notes, hs, eIa, eIn, eI, md1, md2, md3, md4, md5, h0, h2, h4,
          ite_self]
      rw [hR]
    · rw [hL, if_neg hm]
      have hR : get_chord_notes key mode "i" = some [a0, a2, a4] := by
        simp [get_chord_notes, hs, eia, ein, ei, mi1, mi2, mi3, mi4, mi5, h0, h2, h4,
          ite_self]
      rw [hR]

/-- Witness for C9's amended theorem at key `"C"`, mode `"major"`,
numeral `"IX"`. -/
theorem C9_unknown_numeral_fallback_witness :
    get_chord_notes "C" "major" "IX" =
      (get_scale_notes "C" "major").map (fun s => [s.getD 0 "", s.getD 2 "", s.getD 4 ""]) ∧
    get_chord_notes "C" "major" "IX" =
      get_chord_notes "C" "major" (if strToLower "major" == "major" then "I" else "i") :=
  C9_unknown_numeral_fallback "C" "major" "IX" (by decide) (by decide) (by decide)
    (by decide) (by decide) (by decide) (by decide)

/-! ## Claim C10 -/

/-- Claim C10: every flat spelling is handled uniformly: for each letter
`L` in `A`..`G`, `get_note_index (L ++ "b")` is one semitone below
`get_note_index L` (as `(i + 11) % 12 = (i - 1) mod 12` for `i < 12`),
including `"Cb"` and `"Fb"`, which are absent from the 5-entry flat
table — the table lookup is redundant with the accidental adjustment. -/
theorem C10_flats_uniform :
    ∀ L ∈ (["A", "B", "C", "D", "E", "F", "G"] : List String),
      get_note_index (L ++ "b") = (get_note_index L).map (fun i => (i + 11) % 12) := by
  decide

/-- Witness for C10 at `L = "C"` (the `"Cb"` case missing from the flat
table): `get_note_index "Cb" = 11`. -/
theorem C10_flats_uniform_witness :
    get_note_index ("C" ++ "b") = (get_note_index "C").map (fun i => (i + 11) % 12) :=
  C10_flats_uniform "C" (by decide)

/-! ## Claim C5 -/

lemma adjustLength_spec {canned : List String} (hc4 : canned.length = 4) (n : Nat) :
    ∃ res, adjustLength canned n n = some res ∧ res.length = n ∧
      ∀ i < n, res.get? i = canned.get? (i % canned.length) := by
  rw [adjustLength, hc4]
  by_cases h1 : 4 < n
  · rw [if_pos h1]
    have hs : (extendLoop canned [] n n).isSome := by
      apply extendLoop_isSome
      simp [hc4]
      omega
    obtain ⟨res0, hres0⟩ := Option.isSome_iff_exists.mp hs
    obtain ⟨k, hk, hlen⟩ := extendLoop_char hres0
    simp only [List.nil_append] at hk
    refine ⟨res0.take n, by rw [hres0]; rfl, ?_, ?_⟩
    · rw [List.length_take]; omega
    · intro i hi
      have hkl : res0.length = k * canned.length := by rw [hk, flatten_replicate_length]
      have hik : i < k * canned.length := by omega
      rw [List.get?_take hi, hk, flatten_replicate_get canned k i hik, hc4]
  · rw [if_neg h1]
    by_cases h2 : n < 4
    · rw [if_pos h2]
      refine ⟨canned.take n, rfl, ?_, ?_⟩
      · rw [List.length_take]; omega
      · intro i hi
        rw [List.get?_take hi, Nat.mod_eq_of_lt (by omega)]
    · rw [if_neg h2]
      refine ⟨canned, rfl, by omega, ?_⟩
      intro i hi
      rw [Nat.mod_eq_of_lt (by omega)]

/-- Claim C5: for every mode (and key and random state) and every target
length `N ≥ 1`, `get_chord_progression` returns exactly `N` chord
symbols, and the result indexes cyclically into whichever canned 4-chord
progression the random draw selected: element `i` equals the canned
progression's element at `i mod 4` — which for `N < 4` is exactly the
canned progression's first `N` elements. -/
theorem C5_progression_exact_length :
    ∀ (key mode : String) (n : Nat) (r : Rng), 1 ≤ n →
      ∃ canned res r',
        (canned ∈ major_progressions ∨ canned ∈ minor_progressions) ∧
        get_chord_progression key mode n r n = some (res, r') ∧
        res.length = n ∧
        ∀ i < n, res.get? i = canned.get? (i % canned.length) := by
  intro key mode n r hn
  rw [get_chord_progression]
  by_cases hm : (strToLower mode == "major") = true
  · rw [if_pos hm]
    have hch : choice major_progressions r =
        some (major_progressions.getD (r.next.1 % 4) ["I", "IV", "V", "I"], r.next.2) := rfl
    set canned := major_progressions.getD (r.next.1 % 4) ["I", "IV", "V", "I"] with hcdef
    have hlt4 : r.next.1 % 4 < major_progressions.length := by
      have h4 : major_progressions.length = 4 := rfl
      rw [h4]
      exact Nat.mod_lt _ (by omega)
    have hmem : canned ∈ major_progressions := by
      rw [hcdef, List.getD_eq_getElem _ _ hlt4]
      exact List.getElem_mem _
    have hc4 : canned.length = 4 := by
      have hall : ∀ p ∈ major_progressions, p.length = 4 := by decide
      exact hall canned hmem
    obtain ⟨res, hres, hlen, hidx⟩ := adjustLength_spec hc4 n
    refine ⟨canned, res, r.next.2, Or.inl hmem, ?_, hlen, hidx⟩
    rw [hch]
    simp [hres]
  · rw [if_neg hm]
    have hch : choice minor_progressions r =
        some (minor_progressions.getD (r.next.1 % 4) ["i", "iv", "v", "i"], r.next.2) := rfl
    set canned := minor_progressions.getD (r.next.1 % 4) ["i", "iv", "v", "i"] with hcdef
    have hlt4 : r.next.1 % 4 < minor_progressions.length := by
      have h4 : minor_progressions.length = 4 := rfl
      rw [h4]
      exact Nat.mod_lt _ (by omega)
    have hmem : canned ∈ minor_progressions := by
      rw [hcdef, List.getD_eq_getElem _ _ hlt4]
      exact List.getElem_mem _
    have hc4 : canned.length = 4 := by
      have hall : ∀ p ∈ minor_progressions, p.length = 4 := by decide
      exact hall canned hmem
    obtain ⟨res, hres, hlen, hidx⟩ := adjustLength_spec hc4 n
    refine ⟨canned, res, r.next.2, Or.inr hmem, ?_, hlen, hidx⟩
    rw [hch]
    simp [hres]

/-- Witness for C5 at mode `"major"`, `N = 5`, seeded random state. -/
theorem C5_progression_exact_length_witness :
    ∃ canned res r',
      (canned ∈ major_progressions ∨ canned ∈ minor_progressions) ∧
      get_chord_progression "C" "major" 5 (Rng.seeded 0) 5 = some (res, r') ∧
      res.length = 5 ∧
      ∀ i < 5, res.get? i = canned.get? (i % canned.length) :=
  C5_progression_exact_length "C" "major" 5 (Rng.seeded 0) (by decide)

/-! ## Claim C8 -/

lemma rhythm_bucket (avail : List ℚ) (hne : avail ≠ [])
    (hlb : ∀ d ∈ avail, (1/4 : ℚ) ≤ d) (r : Rng) {fuel : Nat} (hf : 16 ≤ fuel) :
    ∃ l r', rhythmLoop avail [] 0 r fuel = some (l, r') ∧ l ≠ [] ∧
      (∀ d ∈ l, 0 < d) ∧ 4 ≤ l.sum ∧ ∀ k < l.length, (l.take k).sum < 4 := by
  have hb : (4 : ℚ) ≤ 0 + (fuel : ℚ) * (1/4) := by
    have h16 : (16 : ℚ) ≤ (fuel : ℚ) := by exact_mod_cast hf
    linarith
  obtain ⟨ext, r', heq, hne', hmem, hsum, hpre⟩ :=
    rhythmLoop_spec hne hlb fuel [] 0 r (by norm_num) hb
  refine ⟨ext, r', by simpa using heq, hne', ?_, by simpa using hsum, ?_⟩
  · intro d hd
    exact lt_of_lt_of_le (by norm_num) (hlb d (hmem d hd))
  · intro k hk
    simpa using hpre k hk

lemma generate_rhythm_pattern_spec (c : ℚ) (r : Rng) {fuel : Nat} (hf : 16 ≤ fuel) :
    ∃ l r', generate_rhythm_pattern c r fuel = some (l, r') ∧ l ≠ [] ∧
      (∀ d ∈ l, 0 < d) ∧ 4 ≤ l.sum ∧ ∀ k < l.length, (l.take k).sum < 4 := by
  rw [generate_rhythm_pattern]
  by_cases hc3 : c < mkRat 3 10
  · rw [if_pos hc3]
    exact rhythm_bucket _ (by simp)
      (by intro d hd; fin_cases hd <;> norm_num [Rat.mkRat_eq_div]) r hf
  · rw [if_neg hc3]
    by_cases hc6 : c < mkRat 6 10
    · rw [if_pos hc6]
      exact rhythm_bucket _ (by simp)
        (by intro d hd; fin_cases hd <;> norm_num [Rat.mkRat_eq_div]) r hf
    · rw [if_neg hc6]
      exact rhythm_bucket _ (by simp)
        (by intro d hd; fin_cases hd <;> norm_num [Rat.mkRat_eq_div]) r hf

/-- Claim C8: for every complexity in `[0,1]` (any random state, fuel 16
suffices), `generate_rhythm_pattern` terminates with a non-empty list of
strictly positive durations whose sum is at least 4 beats, and every
proper prefix sums to less than 4 — the loop stops the first time the
running total reaches 4, so only the final element can overshoot. -/
theorem C8_rhythm_pattern_sum :
    ∀ (complexity : ℚ) (r : Rng), 0 ≤ complexity → complexity ≤ 1 →
      ∃ l r', generate_rhythm_pattern complexity r 16 = some (l, r') ∧
        l ≠ [] ∧ (∀ d ∈ l, 0 < d) ∧ 4 ≤ l.sum ∧
        ∀ k < l.length, (l.take k).sum < 4 := by
  intro c r h0 h1
  exact generate_rhythm_pattern_spec c r (le_refl 16)

/-- Witness for C8 at complexity `1/2`, seeded random state. -/
theorem C8_rhythm_pattern_sum_witness :
    ∃ l r', generate_rhythm_pattern (1/2) (Rng.seeded 0) 16 = some (l, r') ∧
      l ≠ [] ∧ (∀ d ∈ l, 0 < d) ∧ 4 ≤ l.sum ∧
      ∀ k < l.length, (l.take k).sum < 4 :=
  C8_rhythm_pattern_sum (1/2) (Rng.seeded 0) (by norm_num) (by norm_num)

/-! ## Claim C2 -/

@[simp] lemma startsWithL_nil_pat (s : List Char) : startsWithL s [] = true := by
  cases s <;> rfl

@[simp] lemma startsWithL_cons (a : Char) (s : List Char) (b : Char) (p : List Char) :
    startsWithL (a :: s) (b :: p) = ((a == b) && startsWithL s p) := rfl

lemma extendLoop_zero (prog : List String) (fuel : Nat) : extendLoop prog [] 0 fuel = some [] := by
  rw [extendLoop.eq_def]
  simp

lemma choice_isSome {α : Type} {xs : List α} (h : xs ≠ []) (r : Rng) :
    (choice xs r).isSome := by
  cases xs with
  | nil => exact absurd rfl h
  | cons x t => rfl

lemma bind_isSome {α β : Type} {o : Option α} {f : α → Option β} (ho : o.isSome)
    (hf : ∀ a, (f a).isSome) : (o.bind f).isSome := by
  cases o with
  | none => simp at ho
  | some a => exact hf a

/-- The chord symbols for which `generate_melody`'s chord-tone dispatch
produces a non-empty list: symbols whose first character is `I`, `i`,
`V` or `v`. -/
def goodMelodySymbol (c : String) : Prop :=
  c.data.head? ∈ ([some 'I', some 'i', some 'V', some 'v'] : List (Option Char))

instance (c : String) : Decidable (goodMelodySymbol c) := by
  unfold goodMelodySymbol
  infer_instance

lemma melodyChordTones_good {scale : List String} (h7 : scale.length = 7) {c : String}
    (hc : goodMelodySymbol c) :
    ∃ tones, melodyChordTones scale c = some tones ∧ tones ≠ [] := by
  obtain ⟨ch, t, hdata⟩ : ∃ ch t, c.data = ch :: t := by
    cases hd : c.data with
    | nil => rw [goodMelodySymbol, hd] at hc; simp at hc
    | cons a b => exact ⟨a, b, rfl⟩
  obtain ⟨a0, h0⟩ := scale7_get h7 (by omega : (0 : Nat) < 7)
  obtain ⟨a1, h1⟩ := scale7_get h7 (by omega : (1 : Nat) < 7)
  obtain ⟨a2, h2⟩ := scale7_get h7 (by omega : (2 : Nat) < 7)
  obtain ⟨a3, h3⟩ := scale7_get h7 (by omega : (3 : Nat) < 7)
  obtain ⟨a4, h4⟩ := scale7_get h7 (by omega : (4 : Nat) < 7)
  obtain ⟨a5, h5⟩ := scale7_get h7 (by omega : (5 : Nat) < 7)
  obtain ⟨a6, h6⟩ := scale7_get h7 (by omega : (6 : Nat) < 7)
  simp only [List.get?_eq_getElem?] at h0 h1 h2 h3 h4 h5 h6
  rw [goodMelodySymbol, hdata] at hc
  simp only [List.head?_cons, List.mem_cons, List.mem_singleton, Option.some.injEq,
    List.not_mem_nil, or_false] at hc
  rcases hc with h | h | h | h <;> subst h
  · refine ⟨[a0, a2, a4], ?_, by simp⟩
    simp [melodyChordTones, strStarts, hdata, h0, h2, h4]
  · refine ⟨[a0, a2, a4], ?_, by simp⟩
    simp [melodyChordTones, strStarts, hdata, h0, h2, h4]
  · refine ⟨[a4, a6, a1], ?_, by simp⟩
    simp [melodyChordTones, strStarts, hdata, h1, h4, h6]
  · refine ⟨[a4, a6, a1], ?_, by simp⟩
    simp [melodyChordTones, strStarts, hdata, h1, h4, h6]

lemma bass_patterns_some {scale : List String} (h7 : scale.length = 7) {chord : String}
    {ch : Char} (hch : chord.data.head? = some ch) :
    ∃ pats, bass_patterns scale chord = some pats ∧ pats.length = 5 := by
  have hdeg : romanFirstDeg ch < 7 := romanDeg_lt _
  obtain ⟨root, hroot⟩ := scale7_get h7 hdeg
  obtain ⟨n2, hn2⟩ := scale7_get h7 (Nat.mod_lt _ (by omega) : (romanFirstDeg ch + 2) % 7 < 7)
  obtain ⟨n4, hn4⟩ := scale7_get h7 (Nat.mod_lt _ (by omega) : (romanFirstDeg ch + 4) % 7 < 7)
  obtain ⟨n6, hn6⟩ := scale7_get h7 (Nat.mod_lt _ (by omega) : (romanFirstDeg ch + 6) % 7 < 7)
  simp only [romanFirstDeg] at hroot hn2 hn4 hn6
  simp only [List.get?_eq_getElem?] at hroot hn2 hn4 hn6
  refine ⟨[[(root, 4)], [(root, 2), (root, 2)], [(root, 2), (n4, 2)],
    [(root, 1), (n2, 1), (n4, 1), (n6, 1)],
    [(root, 1), ("rest", mkRat 1 2), (root, 1), (root, 1), ("rest", mkRat 1 2)]], ?_, rfl⟩
  simp [bass_patterns, hch, hroot, hn2, hn4, hn6]

lemma measureNotes_isSome {scale chord_tones : List String}
    (hs : scale ≠ []) (hc : chord_tones ≠ []) :
    ∀ (pattern : List ℚ) (acc : List (String × ℚ)) (r : Rng),
      (measureNotes scale chord_tones pattern acc r).isSome := by
  intro pattern
  induction pattern with
  | nil => intro acc r; rfl
  | cons d rest ih =>
    intro acc r
    rw [measureNotes]
    rcases hq1 : r.nextQ with ⟨q1, r1⟩
    dsimp only
    split
    · apply bind_isSome (choice_isSome hc r1)
      rintro ⟨note, r2⟩
      exact ih _ _
    · apply bind_isSome (choice_isSome hs r1)
      rintro ⟨note, r2⟩
      exact ih _ _

lemma bassMeasures_isSome {scale prog : List String} (h7 : scale.length = 7)
    (hprog : prog ≠ [])
    (hchords : ∀ c ∈ prog, goodMelodySymbol c) :
    ∀ (measures : List Nat) (acc : List (String × ℚ)) (r : Rng),
      (bassMeasures scale prog measures acc r).isSome := by
  intro measures
  induction measures with
  | nil => intro acc r; rfl
  | cons m rest ih =>
    intro acc r
    have hl : m % prog.length < prog.length := Nat.mod_lt _ (List.length_pos.mpr hprog)
    obtain ⟨chordv, hchordv⟩ : ∃ c, prog.get? (m % prog.length) = some c :=
      ⟨_, List.get?_eq_get hl⟩
    obtain ⟨ch, t, hdata⟩ : ∃ ch t, chordv.data = ch :: t := by
      have hg := hchords chordv (List.get?_mem hchordv)
      cases hd : chordv.data with
      | nil => rw [goodMelodySymbol, hd] at hg; simp at hg
      | cons a b => exact ⟨a, b, rfl⟩
    have hch : chordv.data.head? = some ch := by rw [hdata]; rfl
    obtain ⟨pats, hbp, hplen⟩ := bass_patterns_some h7 hch
    rw [bassMeasures, hchordv]
    simp only [Option.bind_eq_bind, Option.some_bind]
    rw [hbp]
    simp only [Option.bind_eq_bind, Option.some_bind]
    apply bind_isSome (choice_isSome (by intro hh; rw [hh] at hplen; simp at hplen) r)
    rintro ⟨p, r2⟩
    exact ih _ _

lemma melodyMeasures_isSome {scale prog : List String} (h7 : scale.length = 7)
    (hprog : prog ≠ [])
    (hchords : ∀ c ∈ prog, goodMelodySymbol c) (rv : ℚ) :
    ∀ (measures : List Nat) (acc : List (String × ℚ)) (r : Rng) (fuel : Nat), 16 ≤ fuel →
      (melodyMeasures scale prog rv measures acc r fuel).isSome := by
  intro measures
  induction measures with
  | nil => intro acc r fuel hf; rfl
  | cons m rest ih =>
    intro acc r fuel hf
    have hl : m % prog.length < prog.length := Nat.mod_lt _ (List.length_pos.mpr hprog)
    obtain ⟨chordv, hchordv⟩ : ∃ c, prog.get? (m % prog.length) = some c :=
      ⟨_, List.get?_eq_get hl⟩
    obtain ⟨tones, htones, htne⟩ :=
      melodyChordTones_good h7 (hchords chordv (List.get?_mem hchordv))
    obtain ⟨l, r2, hlr, hlne, hpos, hsum, hpre⟩ := generate_rhythm_pattern_spec rv r hf
    rw [melodyMeasures, hchordv]
    simp only [Option.bind_eq_bind, Option.some_bind]
    rw [htones]
    simp only [Option.bind_eq_bind, Option.some_bind]
    rw [hlr]
    simp only [Option.bind_eq_bind, Option.some_bind]
    apply bind_isSome
    · exact measureNotes_isSome (by intro hh; rw [hh] at h7; simp at h7) htne _ _ _
    · rintro ⟨notes, r3⟩
      exact ih _ _ fuel hf

/-- Claim C2, counterexample: with the empty chord progression and one
measure, the `while len(extended) < num_measures: extended.extend(...)`
loop in both generators never makes progress, so `generate_melody` and
`generate_bass_line` diverge (every fuel is exhausted) instead of
returning a list — the generators are not total on the empty progression
with `n ≥ 1`. -/
theorem C2_counterexample :
    melodyDivergesAt cMajorScale [] 1 (1/2) (Rng.seeded 0) ∧
    bassDivergesAt cMajorScale [] 1 (Rng.seeded 0) := by
  constructor
  · intro fuel
    have h := extendLoop_nil 1 [] (by simp) fuel
    simp [generate_melody, melodyDivergesAt, h]
  · intro fuel
    have h := extendLoop_nil 1 [] (by simp) fuel
    simp [generate_bass_line, bassDivergesAt, h]

/-- Claim C2 (amended): for zero measures both generators return the
empty event sequence for EVERY progression (including the empty one),
and for every `n ≥ 0` they terminate and return a list whenever the
progression is non-empty (fuel `n + 16` suffices), the scale has its 7
notes, and every chord symbol starts with `I`/`i`/`V`/`v` (otherwise the
melody generator's `random.choice` on the empty chord-tone list can
raise).  The original claim fails only on the empty progression with
`n ≥ 1`, where the extension loop diverges. -/
theorem C2_generators_total :
    (∀ (scale_notes chord_progression : List String) (rv : ℚ) (r : Rng) (fuel : Nat),
        generate_melody scale_notes chord_progression 0 rv r fuel = some ([], r) ∧
        generate_bass_line scale_notes chord_progression 0 r fuel = some ([], r)) ∧
    (∀ (scale_notes chord_progression : List String) (n : Nat) (rv : ℚ) (r : Rng),
        scale_notes.length = 7 → chord_progression ≠ [] →
        (∀ c ∈ chord_progression, goodMelodySymbol c) →
        (generate_melody scale_notes chord_progression n rv r (n + 16)).isSome ∧
        (generate_bass_line scale_notes chord_progression n r (n + 16)).isSome) := by
  constructor
  · intro scale prog rv r fuel
    constructor
    · simp [generate_melody, extendLoop_zero, melodyMeasures]
    · simp [generate_bass_line, extendLoop_zero, bassMeasures]
  · intro scale prog n rv r h7 hne hchords
    have hplen : 1 ≤ prog.length := List.length_pos.mpr hne
    have hsome : (extendLoop prog [] n (n + 16)).isSome := by
      apply extendLoop_isSome
      have hstep : n + 16 ≤ (n + 16) * prog.length := Nat.le_mul_of_pos_right _ (by omega)
      simp only [List.length_nil]
      omega
    obtain ⟨ext, hext⟩ := Option.isSome_iff_exists.mp hsome
    obtain ⟨k, hk, hlen⟩ := extendLoop_char hext
    simp only [List.nil_append] at hk
    have hp2len : (ext.take n).length = n := by rw [List.length_take]; omega
    have hp2sub : ∀ c ∈ ext.take n, c ∈ prog := by
      intro c hc
      have hcm : c ∈ ext := List.take_subset _ _ hc
      rw [hk] at hcm
      rcases List.mem_flatten.mp hcm with ⟨l, hl, hcl⟩
      rw [List.eq_of_mem_replicate hl] at hcl
      exact hcl
    by_cases hn : n = 0
    · subst hn
      constructor
      · simp [generate_melody, extendLoop_zero, melodyMeasures]
      · simp [generate_bass_line, extendLoop_zero, bassMeasures]
    · have hp2ne : ext.take n ≠ [] := by
        intro hh
        rw [hh] at hp2len
        simp at hp2len
        omega
      have hp2chords : ∀ c ∈ ext.take n, goodMelodySymbol c :=
        fun c hc => hchords c (hp2sub c hc)
      constructor
      · rw [generate_melody, hext]
        simp only [Option.bind_eq_bind, Option.some_bind]
        exact melodyMeasures_isSome h7 hp2ne hp2chords rv (List.range n) [] r (n + 16)
          (by omega)
      · rw [generate_bass_line, hext]
        simp only [Option.bind_eq_bind, Option.some_bind]
        exact bassMeasures_isSome h7 hp2ne hp2chords (List.range n) [] r

/-- Witness for C2's amended theorem: a 2-measure melody and bass line
over the progression `["I", "IV"]` in C major both return a value. -/
theorem C2_generators_total_witness :
    (generate_melody cMajorScale ["I", "IV"] 2 (1/2) (Rng.seeded 0) (2 + 16)).isSome ∧
    (generate_bass_line cMajorScale ["I", "IV"] 2 (Rng.seeded 0) (2 + 16)).isSome :=
  C2_generators_total.2 cMajorScale ["I", "IV"] 2 (1/2) (Rng.seeded 0) (by decide)
    (by decide) (by decide)

/-! ## Claim C3 -/

/-- Claim C3, counterexample: style jazz, complexity 0.9, progression
`["vii"]` in C major, with a random stream that draws the 11th
(root + 18): the triad is B-D-F, the 9th is C#, and the 11th (B + 18
semitones, folded) is F — the SAME pitch class as the diminished fifth —
so every chord of the measure has only 4 distinct pitch classes, not the
claimed ≥ 5. -/
theorem C3_counterexample :
    (generate_chord_part_jazz cMajorScale ["vii"] 1 (mkRat 9 10) (Rng.const 999) 2).map
        (fun p => p.1.map (fun m => m.map (fun e => distinctPC e.notes))) =
      some [[4, 4, 4, 4]] ∧ ¬ (5 : Nat) ≤ 4 := by
  decide

set_option maxHeartbeats 1000000 in
lemma jazz_master :
    ∀ b ∈ ([true, false] : List Bool), ∀ key ∈ validRoots, ∀ mode ∈ modeNames,
      ∀ num ∈ plainNumerals,
        triadFifthInterval key mode num ≠ some 6 →
        5 ≤ distinctPC ((jazzTriad key mode num).getD [] ++
          [jazzNinth ((jazzTriad key mode num).getD []),
           jazzExt ((jazzTriad key mode num).getD []) b]) := by decide

set_option maxHeartbeats 1000000 in
lemma jazz_triad_facts :
    ∀ key ∈ validRoots, ∀ mode ∈ modeNames, ∀ num ∈ plainNumerals,
      (jazzTriad key mode num).map
        (fun cn => decide (3 ≤ cn.length) &&
          ((cn.get? 0).bind get_note_index).isSome) = some true := by decide

lemma add_jazz_notes_cases {cn : List String} {c : ℚ} (h6 : mkRat 6 10 < c)
    (h8 : mkRat 8 10 < c)
    (hlen : 3 ≤ cn.length) {root : String} (hroot : cn.get? 0 = some root)
    (hpc : (get_note_index root).isSome) (r : Rng) :
    ∃ b : Bool, ∀ ev r', add_jazz_chord_pattern cn c r = some (ev, r') →
      ∀ e ∈ ev, e.notes = cn ++ [jazzNinth cn, jazzExt cn b] := by
  obtain ⟨pc, hpcv⟩ := Option.isSome_iff_exists.mp hpc
  have hroot0 : cn[0]?.getD "" = root := by
    rw [← List.get?_eq_getElem?, hroot]
    rfl
  have h14 : transposeName root 14 = some (jazzNinth cn) := by
    simp [jazzNinth, hroot0, transposeName, hpcv]
  have h18 : transposeName root 18 = some (jazzExt cn true) := by
    simp [jazzExt, hroot0, transposeName, hpcv]
  have h21 : transposeName root 21 = some (jazzExt cn false) := by
    simp [jazzExt, hroot0, transposeName, hpcv]
  rcases hq' : r.nextQ with ⟨q, r1⟩
  by_cases hq : mkRat 1 2 < q
  · refine ⟨true, ?_⟩
    intro ev r' heq
    simp only [add_jazz_chord_pattern, Option.bind_eq_bind, Option.pure_def, h6, hlen,
      and_self, if_true, if_false, hroot, Option.some_bind, h14, h8, hq', hq, h18,
      Option.some.injEq, Prod.mk.injEq] at heq
    obtain ⟨hev, hrr⟩ := heq
    subst hev
    intro e he
    rcases List.mem_map.mp he with ⟨p, hp, rfl⟩
    rfl
  · refine ⟨false, ?_⟩
    intro ev r' heq
    simp only [add_jazz_chord_pattern, Option.bind_eq_bind, Option.pure_def, h6, hlen,
      and_self, if_true, if_false, hroot, Option.some_bind, h14, h8, hq', hq, h21,
      Option.some.injEq, Prod.mk.injEq] at heq
    obtain ⟨hev, hrr⟩ := heq
    subst hev
    intro e he
    rcases List.mem_map.mp he with ⟨p, hp, rfl⟩
    rfl

/-- Claim C3 (amended): at style jazz and chord-complexity 0.9, every
chord the comping generator emits for a measure contains at least 5
distinct pitch classes — UNLESS the triad's root-to-fifth interval is 6
semitones (the diatonic diminished triad: the VII family in major, the II
family in minor) and the random draw picks the 11th, whose pitch class
(root + 18 ≡ root + 6 mod 12) coincides with that fifth, leaving only 4
distinct pitch classes (the counterexample).  For every key, both modes,
and every plain numeral whose triad is not the diminished one, the ≥ 5
bound holds for both extension draws. -/
theorem C3_jazz_extensions :
    ∀ key ∈ validRoots, ∀ mode ∈ modeNames, ∀ num ∈ plainNumerals,
      ∀ cn, jazzTriad key mode num = some cn →
        triadFifthInterval key mode num ≠ some 6 →
        ∀ (r : Rng) (ev : List ChordEvent) (r' : Rng),
          add_jazz_chord_pattern cn (mkRat 9 10) r = some (ev, r') →
          ev.all (fun e => decide (5 ≤ distinctPC e.notes)) = true := by
  intro key hkey mode hmode num hnum cn hcn hfifth r ev r' heq
  have hfacts := jazz_triad_facts key hkey mode hmode num hnum
  rw [hcn] at hfacts
  simp only [Option.map_some', Option.some.injEq, Bool.and_eq_true, decide_eq_true_eq] at hfacts
  obtain ⟨hlen, hbind⟩ := hfacts
  obtain ⟨root, hroot, hpc⟩ : ∃ root, cn.get? 0 = some root ∧ (get_note_index root).isSome := by
    cases hr : cn.get? 0 with
    | none => rw [hr] at hbind; simp at hbind
    | some root => rw [hr] at hbind; exact ⟨root, rfl, hbind⟩
  obtain ⟨b, hb⟩ := add_jazz_notes_cases (show mkRat 6 10 < mkRat 9 10 by decide)
    (show mkRat 8 10 < mkRat 9 10 by decide) hlen hroot hpc r
  have hnotes := hb ev r' heq
  rw [List.all_eq_true]
  intro e he
  have hmaster := jazz_master b (by cases b <;> simp) key hkey mode hmode num hnum hfifth
  rw [hcn] at hmaster
  simp only [Option.getD_some] at hmaster
  rw [hnotes e he]
  exact decide_eq_true hmaster

/-- Witness for C3's amended theorem at key `"C"`, mode `"major"`,
numeral `"I"`, seeded random state: the emitted chord is
C-E-G + 9th D + 13th A, with 5 distinct pitch classes. -/
theorem C3_jazz_extensions_witness :
    List.all [ChordEvent.mk 0 ["C", "E", "G", "D", "A"] (mkRat 1 2) 70,
        ChordEvent.mk (mkRat 3 2) ["C", "E", "G", "D", "A"] (mkRat 1 2) 80,
        ChordEvent.mk (mkRat 5 2) ["C", "E", "G", "D", "A"] (mkRat 1 2) 90,
        ChordEvent.mk (mkRat 7 2) ["C", "E", "G", "D", "A"] (mkRat 1 2) 70]
      (fun e => decide (5 ≤ distinctPC e.notes)) = true :=
  C3_jazz_extensions "C" (by decide) "major" (by decide) "I" (by decide) ["C", "E", "G"]
    (by decide) (by decide) (Rng.seeded 0)
    [ChordEvent.mk 0 ["C", "E", "G", "D", "A"] (mkRat 1 2) 70,
     ChordEvent.mk (mkRat 3 2) ["C", "E", "G", "D", "A"] (mkRat 1 2) 80,
     ChordEvent.mk (mkRat 5 2) ["C", "E", "G", "D", "A"] (mkRat 1 2) 90,
     ChordEvent.mk (mkRat 7 2) ["C", "E", "G", "D", "A"] (mkRat 1 2) 70]
    ⟨lcgStream 0, 2⟩ rfl

/-! ## Claim C7 -/

/-- Claim C7: for every valid key, both modes, and each of the fourteen
modifier-free numerals, `get_chord_notes` returns exactly 3 notes — the
scale tones at degrees `d`, `(d+2) % 7`, `(d+4) % 7` — naming 3 distinct
pitch classes; appending `7` yields exactly 4 (adding the `(d+6) % 7`
scale tone). -/
theorem C7_chord_notes :
    ∀ key ∈ validRoots, ∀ mode ∈ modeNames, ∀ num ∈ plainNumerals,
      (get_chord_notes key mode num).map List.length = some 3 ∧
      (get_chord_notes key mode num).map distinctPC = some 3 ∧
      get_chord_notes key mode num = (get_scale_notes key mode).map (fun s =>
        [s.getD (romanDeg num) "", s.getD ((romanDeg num + 2) % 7) "",
         s.getD ((romanDeg num + 4) % 7) ""]) ∧
      (get_chord_notes key mode (num ++ "7")).map List.length = some 4 ∧
      (get_chord_notes key mode (num ++ "7")).map distinctPC = some 4 ∧
      get_chord_notes key mode (num ++ "7") = (get_scale_notes key mode).map (fun s =>
        [s.getD (romanDeg num) "", s.getD ((romanDeg num + 2) % 7) "",
         s.getD ((romanDeg num + 4) % 7) "", s.getD ((romanDeg num + 6) % 7) ""]) := by
  decide

/-- Witness for C7 at key `"C"`, mode `"major"`, numeral `"IV"`. -/
theorem C7_chord_notes_witness :
    (get_chord_notes "C" "major" "IV").map List.length = some 3 ∧
    (get_chord_notes "C" "major" "IV").map distinctPC = some 3 ∧
    get_chord_notes "C" "major" "IV" = (get_scale_notes "C" "major").map (fun s =>
      [s.getD (romanDeg "IV") "", s.getD ((romanDeg "IV" + 2) % 7) "",
       s.getD ((romanDeg "IV" + 4) % 7) ""]) ∧
    (get_chord_notes "C" "major" ("IV" ++ "7")).map List.length = some 4 ∧
    (get_chord_notes "C" "major" ("IV" ++ "7")).map distinctPC = some 4 ∧
    get_chord_notes "C" "major" ("IV" ++ "7") = (get_scale_notes "C" "major").map (fun s =>
      [s.getD (romanDeg "IV") "", s.getD ((romanDeg "IV" + 2) % 7) "",
       s.getD ((romanDeg "IV" + 4) % 7) "", s.getD ((romanDeg "IV" + 6) % 7) ""]) :=
  C7_chord_notes "C" (by decide) "major" (by decide) "IV" (by decide)
